import Mathlib

/-!
Verification of the events-system slot-availability engine.

Shallow embedding of the Go sources:
  * `src/user/types.go`, `src/event/types.go` — the data model. Instants
    (Go `time.Time`) become `Int` seconds; the Go zero time becomes `0`.
    UUIDs become `Nat`; `uuid.Nil` becomes `0`.
  * `src/user/dao.go` `GetUsersForSlot` — the availability SQL query,
    embedded over an explicit table state (`DB`).
  * `src/event/dao.go` `GetPossibleEventSlot` — the resolution loop,
    embedded over an accessor environment (`Env`), instrumented with the
    list of availability calls actually issued (mirroring the
    call-count assertions of `src/event/event_test.go`).
  * `src/user/dao.go` `CreateUserSlots` — the transactional bulk insert,
    with the transaction buffer made explicit.
  * `src/event/dao.go` `UpdateEvent` — the three-column UPDATE plus
    re-fetch, over an explicit events table.

Go functions returning `(value, error)` become pairs/records with an
`Option String` error component; a `nil` pointer result becomes `none`.
-/

/-- `user.User` of `src/user/types.go`. -/
structure User where
  id : Nat
  name : String
  email : String
deriving DecidableEq, Repr

/-- `event.Slot` of `src/event/types.go` (also the JSON column shape).
`startTime`/`endTime` are instants in seconds; the Go zero time is `0`. -/
structure Slot where
  startTime : Int
  endTime : Int
deriving DecidableEq, Repr

/-- `user.Slot` of `src/user/types.go`: structurally identical to
`event.Slot` but a distinct Go type, converted at the call site in
`GetPossibleEventSlot`. -/
structure UserSlot where
  startTime : Int
  endTime : Int
deriving DecidableEq, Repr

/-- `event.Event` of `src/event/types.go`. -/
structure Event where
  id : Nat
  title : String
  durationHours : Int
  userId : Nat
  slots : List Slot
  createdAt : Int
deriving DecidableEq, Repr

/-- `event.PossibleEventSlot` of `src/event/types.go`. -/
structure PossibleEventSlot where
  slot : Slot
  users : List User
  notWorkingUsers : List User
deriving DecidableEq, Repr

/-- `(*Slot).Validate` of `src/event/types.go` lines 69-80: the error
message, or `none` for a valid slot. `time.Time.IsZero` becomes `= 0`;
`StartTime.After(EndTime)` is a strict comparison. -/
def Slot.Validate (s : Slot) : Option String :=
  if s.startTime = 0 then some "start time is required"
  else if s.endTime = 0 then some "end time is required"
  else if s.endTime < s.startTime then some "start time is after end time"
  else none

/-- `(*Event).Validate` of `src/event/types.go` lines 46-62. The Go
message interpolates the slot value (`"invalid slot - %v: %w"`); the
formatted slot value is abstracted away here. -/
def Event.Validate (e : Event) : Option String :=
  if e.title = "" then some "title is required"
  else if e.durationHours ≤ 0 then some "duration hours must be greater than 0"
  else if e.userId = 0 then some "user ID is required"
  else e.slots.findSome? fun s => (Slot.Validate s).map fun msg => "invalid slot: " ++ msg

/-- One row of the `users_availability` table. -/
structure AvailabilityRecord where
  userId : Nat
  startTime : Int
  endTime : Int
deriving DecidableEq, Repr

/-- The tables `GetUsersForSlot` reads. -/
structure DB where
  users : List User
  availability : List AvailabilityRecord
deriving Repr

/-- The WHERE clause of the query in `GetUsersForSlot`
(`src/user/dao.go` line 136):
`start_time <= $1 AND end_time >= $2 AND end_time - start_time >= make_interval(hours => $3)`
with `$1 = slot.StartTime`, `$2 = slot.EndTime`, `$3 = durationHours`.
`make_interval(hours => h)` is `h * 3600` seconds. -/
def recordMatches (r : AvailabilityRecord) (slot : UserSlot) (durationHours : Int) : Bool :=
  decide (r.startTime ≤ slot.startTime) && decide (slot.endTime ≤ r.endTime) &&
    decide (durationHours * 3600 ≤ r.endTime - r.startTime)

/-- `(*Accessor).GetUsersForSlot` of `src/user/dao.go` lines 132-156:
`SELECT users.id, users.name, users.email FROM users_availability JOIN users
ON users_availability.user_id = users.id WHERE ... ORDER BY users.name`.
The JOIN emits one row per matching (record, user) pair; the result is
sorted by user name. -/
def GetUsersForSlot (db : DB) (slot : UserSlot) (durationHours : Int) : List User :=
  (((db.availability.filter fun r => recordMatches r slot durationHours).flatMap
      fun r => db.users.filter fun u => u.id == r.userId).insertionSort
    fun a b => a.name ≤ b.name)

/-! ## The resolution engine (`src/event/dao.go` `GetPossibleEventSlot`)

The accessor boundary (`a.GetEvent`, `a.userAccessor.GetUsers`,
`a.userAccessor.GetUsersForSlot`) is abstracted as an environment of
fallible queries, exactly as `src/event/event_test.go` mocks it with
`MockUserAccessor`. The embedding additionally records which
availability calls the loop issues and whether the population was
fetched, mirroring the test file's `AssertNotCalled` / call-count
assertions. -/

deriving instance DecidableEq for Except

/-- The store boundary of `event.Accessor`: `GetEvent` (the SQL read of
`src/event/dao.go` lines 60-75, `sql.ErrNoRows` mapped to `.ok none`),
`UserAccessor.GetUsers` and `UserAccessor.GetUsersForSlot`
(`src/event/accessor.go` lines 9-12). -/
structure Env where
  getEvent : Nat → Except String (Option Event)
  getUsers : Except String (List User)
  getUsersForSlot : UserSlot → Int → Except String (List User)

/-- What one run of the slot loop produced: the Go pair
`(*PossibleEventSlot, error)` plus the availability calls issued. -/
structure LoopOut where
  result : Option PossibleEventSlot
  err : Option String
  queried : List (UserSlot × Int)
deriving Repr

/-- The Go zero value `PossibleEventSlot{}` initialising `possibleSlot`
(`src/event/dao.go` line 101): zero-time slot, nil slices. -/
def emptyPossibleSlot : PossibleEventSlot := ⟨⟨0, 0⟩, [], []⟩

/-- Lines 111-116 of `src/event/dao.go`: the non-attendees of `users`,
rebuilt from `allUsers` with `slices.Contains`. -/
def notAvailable (allUsers users : List User) : List User :=
  allUsers.filter fun u => !users.contains u

/-- The `for _, slot := range event.Slots` loop of `GetPossibleEventSlot`
(`src/event/dao.go` lines 103-128), including the final
`len(possibleSlot.Users) == 0` suppression after the loop. `acc` is
`possibleSlot`. -/
def slotLoop (env : Env) (dur : Int) (allUsers : List User) :
    List Slot → PossibleEventSlot → LoopOut
  | [], acc => ⟨if acc.users.length = 0 then none else some acc, none, []⟩
  | s :: rest, acc =>
    match env.getUsersForSlot ⟨s.startTime, s.endTime⟩ dur with
    | .error e => ⟨none, some ("get users for slot: " ++ e), [(⟨s.startTime, s.endTime⟩, dur)]⟩
    | .ok users =>
      if acc.users.length ≤ users.length then
        let acc2 : PossibleEventSlot := ⟨s, users, notAvailable allUsers users⟩
        if acc2.users.length = allUsers.length then
          ⟨some acc2, none, [(⟨s.startTime, s.endTime⟩, dur)]⟩
        else
          let out := slotLoop env dur allUsers rest acc2
          ⟨out.result, out.err, (⟨s.startTime, s.endTime⟩, dur) :: out.queried⟩
      else
        let out := slotLoop env dur allUsers rest acc
        ⟨out.result, out.err, (⟨s.startTime, s.endTime⟩, dur) :: out.queried⟩

/-- The full return state of `GetPossibleEventSlot`: the Go pair plus the
instrumentation (`usersFetched` is whether `GetUsers` was called). -/
structure ResolveOut where
  result : Option PossibleEventSlot
  err : Option String
  usersFetched : Bool
  queried : List (UserSlot × Int)
deriving Repr

/-- `(*Accessor).GetPossibleEventSlot` of `src/event/dao.go` lines
87-129. -/
def GetPossibleEventSlot (env : Env) (id : Nat) : ResolveOut :=
  match env.getEvent id with
  | .error e => ⟨none, some ("get event: " ++ e), false, []⟩
  | .ok none => ⟨none, none, false, []⟩
  | .ok (some ev) =>
    if ev.slots.length = 0 then ⟨none, none, false, []⟩
    else
      match env.getUsers with
      | .error e => ⟨none, some ("get users: " ++ e), true, []⟩
      | .ok allUsers =>
        let out := slotLoop env ev.durationHours allUsers ev.slots emptyPossibleSlot
        ⟨out.result, out.err, true, out.queried⟩

/-! ## C8 — Slot.Validate -/

/-- C8: `Slot.Validate` rejects a slot exactly when the start time is
unset (zero), the end time is unset (zero), or the start time is strictly
after the end time; a zero-length slot with set start equal to end passes. -/
theorem slot_validate_error_iff (s : Slot) :
    (Slot.Validate s).isSome = true ↔
      s.startTime = 0 ∨ s.endTime = 0 ∨ s.endTime < s.startTime := by
  unfold Slot.Validate
  split
  · simp_all
  · split
    · simp_all
    · split <;> simp_all

/-! ## C1 — availability-query membership -/

/-- Membership in the modelled SQL result: through the ORDER BY and the
JOIN, a row for `u` exists iff `u` is a user row and some availability
record of `u` satisfies the WHERE clause. -/
theorem mem_getUsersForSlot (db : DB) (slot : UserSlot) (d : Int) (u : User) :
    u ∈ GetUsersForSlot db slot d ↔
      u ∈ db.users ∧ ∃ r ∈ db.availability, r.userId = u.id ∧
        r.startTime ≤ slot.startTime ∧ slot.endTime ≤ r.endTime ∧
        d * 3600 ≤ r.endTime - r.startTime := by
  unfold GetUsersForSlot
  rw [List.mem_insertionSort, List.mem_flatMap]
  constructor
  · rintro ⟨r, hr, hu⟩
    rw [List.mem_filter] at hr hu
    obtain ⟨hrmem, hmatch⟩ := hr
    obtain ⟨humem, hid⟩ := hu
    simp only [recordMatches, Bool.and_eq_true, decide_eq_true_eq] at hmatch
    simp only [beq_iff_eq] at hid
    exact ⟨humem, r, hrmem, hid.symm, hmatch.1.1, hmatch.1.2, hmatch.2⟩
  · rintro ⟨humem, r, hrmem, hid, h1, h2, h3⟩
    refine ⟨r, ?_, ?_⟩
    · rw [List.mem_filter]
      exact ⟨hrmem, by simp only [recordMatches, Bool.and_eq_true, decide_eq_true_eq]
                       exact ⟨⟨h1, h2⟩, h3⟩⟩
    · rw [List.mem_filter]
      exact ⟨humem, by simp only [beq_iff_eq]; exact hid.symm⟩

/-- C1 counterexample: for duration 1 hour and a record spanning exactly
one hour around the target slot, the user IS returned by
`GetUsersForSlot`, although no record has span strictly greater than the
duration — the claim's strict-inequality characterisation is false. -/
theorem getUsersForSlot_strict_span_cex :
    (⟨1, "a", "a@x"⟩ : User) ∈
        GetUsersForSlot ⟨[⟨1, "a", "a@x"⟩], [⟨1, 0, 3600⟩]⟩ ⟨0, 3600⟩ 1 ∧
      ¬ ∃ r ∈ ([⟨1, 0, 3600⟩] : List AvailabilityRecord), r.userId = 1 ∧
          r.startTime ≤ 0 ∧ (3600 : Int) ≤ r.endTime ∧
          1 * 3600 < r.endTime - r.startTime := by
  decide

/-- C1 (amended): for every positive `durationHours`, a user of the store
is returned by `GetUsersForSlot` iff they hold an availability record
with `record.start_time <= slot.StartTime`, `record.end_time >=
slot.EndTime`, and span greater than OR EQUAL to `durationHours` hours
(the SQL comparison is `>=`, so a span exactly equal to the duration
qualifies). -/
theorem getUsersForSlot_mem_iff (db : DB) (slot : UserSlot) (durationHours : Int)
    (hd : 0 < durationHours) (u : User) (hu : u ∈ db.users) :
    u ∈ GetUsersForSlot db slot durationHours ↔
      ∃ r ∈ db.availability, r.userId = u.id ∧
        r.startTime ≤ slot.startTime ∧ slot.endTime ≤ r.endTime ∧
        durationHours * 3600 ≤ r.endTime - r.startTime := by
  rw [mem_getUsersForSlot]
  exact and_iff_right hu

/-- C1 witness: the amended equivalence evaluated at a one-user store. -/
theorem getUsersForSlot_mem_iff_witness :
    (⟨1, "a", "a@x"⟩ : User) ∈
        GetUsersForSlot ⟨[⟨1, "a", "a@x"⟩], [⟨1, 0, 7200⟩]⟩ ⟨0, 3600⟩ 1 ↔
      ∃ r ∈ ([⟨1, 0, 7200⟩] : List AvailabilityRecord), r.userId = 1 ∧
        r.startTime ≤ 0 ∧ (3600 : Int) ≤ r.endTime ∧
        1 * 3600 ≤ r.endTime - r.startTime :=
  getUsersForSlot_mem_iff ⟨[⟨1, "a", "a@x"⟩], [⟨1, 0, 7200⟩]⟩ ⟨0, 3600⟩ 1
    (by decide) ⟨1, "a", "a@x"⟩ (by decide)

/-! ## Loop lemmas -/

/-- Unfolding helper: one step of the loop when the query succeeds. -/
theorem slotLoop_cons_ok (env : Env) (dur : Int) (allUsers : List User)
    (s : Slot) (rest : List Slot) (acc : PossibleEventSlot) (users : List User)
    (hq : env.getUsersForSlot ⟨s.startTime, s.endTime⟩ dur = .ok users) :
    slotLoop env dur allUsers (s :: rest) acc =
      if acc.users.length ≤ users.length then
        if users.length = allUsers.length then
          ⟨some ⟨s, users, notAvailable allUsers users⟩, none,
            [(⟨s.startTime, s.endTime⟩, dur)]⟩
        else
          let out := slotLoop env dur allUsers rest ⟨s, users, notAvailable allUsers users⟩
          ⟨out.result, out.err, (⟨s.startTime, s.endTime⟩, dur) :: out.queried⟩
      else
        let out := slotLoop env dur allUsers rest acc
        ⟨out.result, out.err, (⟨s.startTime, s.endTime⟩, dur) :: out.queried⟩ := by
  rw [slotLoop, hq]

/-- While every remaining count is strictly below the current best, the
best survives to the end of the loop and is returned. -/
theorem slotLoop_skip (env : Env) (dur : Int) (allUsers : List User)
    (f : Slot → List User) (l : List Slot) (acc : PossibleEventSlot)
    (hq : ∀ s ∈ l, env.getUsersForSlot ⟨s.startTime, s.endTime⟩ dur = .ok (f s))
    (hlt : ∀ s ∈ l, (f s).length < acc.users.length)
    (hne : acc.users.length ≠ 0) :
    (slotLoop env dur allUsers l acc).result = some acc := by
  induction l with
  | nil => simp [slotLoop, hne]
  | cons s rest ih =>
    rw [slotLoop_cons_ok env dur allUsers s rest acc (f s) (hq s (by simp))]
    have hbad : ¬ acc.users.length ≤ (f s).length := by
      have := hlt s (by simp)
      omega
    rw [if_neg hbad]
    exact ih (fun t ht => hq t (by simp [ht])) (fun t ht => hlt t (by simp [ht]))

/-- Traversing any front segment whose counts never exceed the count of
`sj`, the loop ends up selecting `sj` when every later count is strictly
smaller and `sj`'s count is neither zero nor the full population. -/
theorem slotLoop_last_max (env : Env) (dur : Int) (allUsers : List User)
    (f : Slot → List User) (sj : Slot) (l₂ : List Slot)
    (hqj : env.getUsersForSlot ⟨sj.startTime, sj.endTime⟩ dur = .ok (f sj))
    (hq2 : ∀ s ∈ l₂, env.getUsersForSlot ⟨s.startTime, s.endTime⟩ dur = .ok (f s))
    (hlt2 : ∀ s ∈ l₂, (f s).length < (f sj).length)
    (hpop : (f sj).length < allUsers.length)
    (hpos : (f sj).length ≠ 0) :
    ∀ (l₁ : List Slot) (acc : PossibleEventSlot),
      (∀ s ∈ l₁, env.getUsersForSlot ⟨s.startTime, s.endTime⟩ dur = .ok (f s)) →
      (∀ s ∈ l₁, (f s).length ≤ (f sj).length) →
      acc.users.length ≤ (f sj).length →
      (slotLoop env dur allUsers (l₁ ++ sj :: l₂) acc).result =
        some ⟨sj, f sj, notAvailable allUsers (f sj)⟩ := by
  intro l₁
  induction l₁ with
  | nil =>
    intro acc _ _ hacc
    rw [List.nil_append, slotLoop_cons_ok env dur allUsers sj l₂ acc (f sj) hqj,
        if_pos hacc, if_neg (by simpa using Nat.ne_of_lt hpop)]
    simpa using
      slotLoop_skip env dur allUsers f l₂ ⟨sj, f sj, notAvailable allUsers (f sj)⟩
        hq2 hlt2 hpos
  | cons s rest ih =>
    intro acc hq1 hle1 hacc
    rw [List.cons_append,
        slotLoop_cons_ok env dur allUsers s (rest ++ sj :: l₂) acc (f s) (hq1 s (by simp))]
    by_cases hb : acc.users.length ≤ (f s).length
    · have hne : ¬ (f s).length = allUsers.length := by
        have := hle1 s (by simp)
        omega
      rw [if_pos hb, if_neg hne]
      simpa using
        ih ⟨s, f s, notAvailable allUsers (f s)⟩
          (fun t ht => hq1 t (by simp [ht])) (fun t ht => hle1 t (by simp [ht]))
          (hle1 s (by simp))
    · rw [if_neg hb]
      simpa using
        ih acc (fun t ht => hq1 t (by simp [ht])) (fun t ht => hle1 t (by simp [ht])) hacc

/-- C2 (amended): when the maximal attendee count over the candidate
slots is at least one and strictly below the size of the user population
(so the early exit cannot fire), among slots tied for that maximum the
LAST one in the event's stored order is selected, with its fresh
complement as non-attendees. -/
theorem getPossibleEventSlot_last_tie (env : Env) (id : Nat) (ev : Event)
    (allUsers : List User) (f : Slot → List User) (l₁ l₂ : List Slot) (sj : Slot)
    (hev : env.getEvent id = .ok (some ev))
    (hus : env.getUsers = .ok allUsers)
    (hsl : ev.slots = l₁ ++ sj :: l₂)
    (hq : ∀ s ∈ ev.slots,
      env.getUsersForSlot ⟨s.startTime, s.endTime⟩ ev.durationHours = .ok (f s))
    (hmax1 : ∀ s ∈ l₁, (f s).length ≤ (f sj).length)
    (hmax2 : ∀ s ∈ l₂, (f s).length < (f sj).length)
    (hpop : (f sj).length < allUsers.length)
    (hpos : (f sj).length ≠ 0) :
    (GetPossibleEventSlot env id).result =
      some ⟨sj, f sj, notAvailable allUsers (f sj)⟩ := by
  rw [GetPossibleEventSlot, hev]
  have hlen : ¬ ev.slots.length = 0 := by simp [hsl]
  simp only [hlen, if_false, hus]
  have := slotLoop_last_max env ev.durationHours allUsers f sj l₂
    (hq sj (by simp [hsl])) (fun s hs => hq s (by simp [hsl, hs]))
    hmax2 hpop hpos l₁ emptyPossibleSlot
    (fun s hs => hq s (by simp [hsl, hs])) hmax1 (by simp [emptyPossibleSlot])
  rw [← hsl] at this
  simpa using this

/-! ## Concrete fixtures for witnesses and counterexamples -/

/-- A one-user fixture. -/
def uA : User := ⟨1, "a", "a@x"⟩

/-- A second user. -/
def uB : User := ⟨2, "b", "b@x"⟩

/-- Two-slot event used by the tie-break fixtures. -/
def evTie : Event := ⟨11, "e", 2, 5, [⟨1, 2⟩, ⟨3, 4⟩], 0⟩

/-- Environment where BOTH slots are attended by the whole population
`[uA]`: a tie at the full population size. -/
def envTie : Env := ⟨fun _ => .ok (some evTie), .ok [uA], fun _ _ => .ok [uA]⟩

/-- Environment where both slots are attended by `uA` out of the
two-user population `[uA, uB]`: a tie strictly below the population. -/
def envTieLow : Env := ⟨fun _ => .ok (some evTie), .ok [uA, uB], fun _ _ => .ok [uA]⟩

/-- C2 counterexample: both candidate slots tie at the maximal attendee
count (the full population), yet the FIRST slot `⟨1, 2⟩` is returned, not
the last one `⟨3, 4⟩` — the early exit fires before the last tied slot is
reached, so the claim's unconditional last-slot-wins rule is false. -/
theorem getPossibleEventSlot_tie_cex :
    (GetPossibleEventSlot envTie 11).result = some ⟨⟨1, 2⟩, [uA], []⟩ ∧
      (⟨1, 2⟩ : Slot) ≠ ⟨3, 4⟩ := by
  decide

/-- C2 witness: with two slots tied at one attendee out of a two-user
population, the last slot wins. -/
theorem getPossibleEventSlot_last_tie_witness :
    (GetPossibleEventSlot envTieLow 11).result = some ⟨⟨3, 4⟩, [uA], [uB]⟩ :=
  getPossibleEventSlot_last_tie envTieLow 11 evTie [uA, uB] (fun _ => [uA])
    [⟨1, 2⟩] [] ⟨3, 4⟩ rfl rfl rfl (fun _ _ => rfl)
    (by intro s hs; exact Nat.le_refl _) (by intro s hs; cases hs)
    (by decide) (by decide)

/-! ## C4 — early exit -/

/-- Once a slot whose count equals the population size is reached (all
counts before it being strictly smaller), the loop stops there: the calls
issued are exactly the front segment plus that slot. -/
theorem slotLoop_early_exit (env : Env) (dur : Int) (allUsers : List User)
    (f : Slot → List User) (sj : Slot) (l₂ : List Slot)
    (hqj : env.getUsersForSlot ⟨sj.startTime, sj.endTime⟩ dur = .ok (f sj))
    (hfull : (f sj).length = allUsers.length) :
    ∀ (l₁ : List Slot) (acc : PossibleEventSlot),
      (∀ s ∈ l₁, env.getUsersForSlot ⟨s.startTime, s.endTime⟩ dur = .ok (f s)) →
      (∀ s ∈ l₁, (f s).length < allUsers.length) →
      acc.users.length ≤ allUsers.length →
      slotLoop env dur allUsers (l₁ ++ sj :: l₂) acc =
        ⟨some ⟨sj, f sj, notAvailable allUsers (f sj)⟩, none,
          (l₁ ++ [sj]).map fun s => (⟨s.startTime, s.endTime⟩, dur)⟩ := by
  intro l₁
  induction l₁ with
  | nil =>
    intro acc _ _ hacc
    rw [List.nil_append, slotLoop_cons_ok env dur allUsers sj l₂ acc (f sj) hqj,
        if_pos (by omega), if_pos hfull]
    simp
  | cons s rest ih =>
    intro acc hq1 hlt1 hacc
    rw [List.cons_append,
        slotLoop_cons_ok env dur allUsers s (rest ++ sj :: l₂) acc (f s) (hq1 s (by simp))]
    have hslt := hlt1 s (by simp)
    by_cases hb : acc.users.length ≤ (f s).length
    · rw [if_pos hb, if_neg (by omega)]
      rw [ih ⟨s, f s, notAvailable allUsers (f s)⟩
          (fun t ht => hq1 t (by simp [ht])) (fun t ht => hlt1 t (by simp [ht]))
          (Nat.le_of_lt hslt)]
      simp
    · rw [if_neg hb]
      rw [ih acc (fun t ht => hq1 t (by simp [ht])) (fun t ht => hlt1 t (by simp [ht])) hacc]
      simp

/-- C4: as soon as a candidate slot's attendee count equals the size of
the full user population (all earlier candidates having strictly fewer
attendees than the population), `GetPossibleEventSlot` stops and returns
that slot's result: the availability calls issued are exactly those for
the earlier candidates and that slot — none for any later slot. -/
theorem getPossibleEventSlot_early_exit (env : Env) (id : Nat) (ev : Event)
    (allUsers : List User) (f : Slot → List User) (l₁ l₂ : List Slot) (sj : Slot)
    (hev : env.getEvent id = .ok (some ev))
    (hus : env.getUsers = .ok allUsers)
    (hsl : ev.slots = l₁ ++ sj :: l₂)
    (hq1 : ∀ s ∈ l₁,
      env.getUsersForSlot ⟨s.startTime, s.endTime⟩ ev.durationHours = .ok (f s))
    (hqj : env.getUsersForSlot ⟨sj.startTime, sj.endTime⟩ ev.durationHours = .ok (f sj))
    (hlt1 : ∀ s ∈ l₁, (f s).length < allUsers.length)
    (hfull : (f sj).length = allUsers.length) :
    GetPossibleEventSlot env id =
      ⟨some ⟨sj, f sj, notAvailable allUsers (f sj)⟩, none, true,
        (l₁ ++ [sj]).map fun s => (⟨s.startTime, s.endTime⟩, ev.durationHours)⟩ := by
  rw [GetPossibleEventSlot, hev]
  have hlen : ¬ ev.slots.length = 0 := by simp [hsl]
  simp only [hlen, if_false, hus]
  rw [hsl, slotLoop_early_exit env ev.durationHours allUsers f sj l₂ hqj hfull l₁
      emptyPossibleSlot hq1 hlt1 (by simp [emptyPossibleSlot])]

/-- C4 witness: with a one-user population fully available for the first
of two slots, only one availability call is issued. -/
theorem getPossibleEventSlot_early_exit_witness :
    GetPossibleEventSlot envTie 11 =
      ⟨some ⟨⟨1, 2⟩, [uA], []⟩, none, true, [(⟨1, 2⟩, 2)]⟩ :=
  getPossibleEventSlot_early_exit envTie 11 evTie [uA] (fun _ => [uA]) [] [⟨3, 4⟩]
    ⟨1, 2⟩ rfl rfl rfl (by intro s hs; cases hs) rfl (by intro s hs; cases hs) rfl

/-! ## C6 — absent event or no slots -/

/-- C6: when the event is absent or has no candidate slots,
`GetPossibleEventSlot` returns absent with no error, fetches no user
population and issues no availability query. -/
theorem getPossibleEventSlot_nothing_to_resolve (env : Env) (id : Nat)
    (h : env.getEvent id = .ok none ∨
      ∃ ev, env.getEvent id = .ok (some ev) ∧ ev.slots = []) :
    GetPossibleEventSlot env id = ⟨none, none, false, []⟩ := by
  rcases h with h | ⟨ev, hev, hsl⟩
  · rw [GetPossibleEventSlot, h]
  · rw [GetPossibleEventSlot, hev]
    simp [hsl]

/-- Environment whose event store is empty. -/
def envAbsent : Env := ⟨fun _ => .ok none, .ok [uA], fun _ _ => .ok [uA]⟩

/-- C6 witness: resolution of an absent event. -/
theorem getPossibleEventSlot_nothing_to_resolve_witness :
    GetPossibleEventSlot envAbsent 7 = ⟨none, none, false, []⟩ :=
  getPossibleEventSlot_nothing_to_resolve envAbsent 7 (Or.inl rfl)

/-! ## C3 — all-zero attendance -/

/-- With a NONEMPTY population, if every remaining query answers with the
empty user list, an empty running best survives to the end and the
outcome is suppressed to absent. -/
theorem slotLoop_all_empty (env : Env) (dur : Int) (allUsers : List User)
    (hpop : allUsers ≠ []) (l : List Slot) (acc : PossibleEventSlot)
    (hq : ∀ s ∈ l, env.getUsersForSlot ⟨s.startTime, s.endTime⟩ dur = .ok [])
    (hacc : acc.users = []) :
    (slotLoop env dur allUsers l acc).result = none ∧
      (slotLoop env dur allUsers l acc).err = none := by
  induction l generalizing acc with
  | nil => simp [slotLoop, hacc]
  | cons s rest ih =>
    rw [slotLoop_cons_ok env dur allUsers s rest acc [] (hq s (by simp))]
    have hlen : ¬ ([] : List User).length = allUsers.length := by
      simpa using fun h => hpop (List.length_eq_zero.mp h.symm)
    rw [if_pos (by simp [hacc]), if_neg hlen]
    simpa using ih ⟨s, [], notAvailable allUsers []⟩ (fun t ht => hq t (by simp [ht])) rfl

/-- C3 (amended): for a NONEMPTY user population, if the availability
query returns zero attendees for every candidate slot, the resolution is
absent — `none` result, `none` error. (With an empty population the early
exit fires instead and a zero-attendee result escapes; see the
counterexample.) -/
theorem getPossibleEventSlot_all_zero_absent (env : Env) (id : Nat) (ev : Event)
    (allUsers : List User)
    (hev : env.getEvent id = .ok (some ev))
    (hus : env.getUsers = .ok allUsers)
    (hpop : allUsers ≠ [])
    (hq : ∀ s ∈ ev.slots,
      env.getUsersForSlot ⟨s.startTime, s.endTime⟩ ev.durationHours = .ok []) :
    (GetPossibleEventSlot env id).result = none ∧
      (GetPossibleEventSlot env id).err = none := by
  rw [GetPossibleEventSlot, hev]
  by_cases hlen : ev.slots.length = 0
  · simp [hlen]
  · simp only [hlen, if_false, hus]
    simpa using slotLoop_all_empty env ev.durationHours allUsers hpop ev.slots
      emptyPossibleSlot hq rfl

/-- One-slot event used by the zero-attendance fixtures. -/
def evOne : Event := ⟨13, "e", 2, 5, [⟨1, 2⟩], 0⟩

/-- Environment with an EMPTY user population and a one-slot event: every
availability query returns zero attendees. -/
def envEmptyPop : Env := ⟨fun _ => .ok (some evOne), .ok [], fun _ _ => .ok []⟩

/-- C3 counterexample: with an empty user population, every availability
query returns zero attendees, yet resolution returns a NON-absent result
whose attendee set is empty (the early exit fires because 0 = 0), so the
claim's "for every user population" is false. -/
theorem getPossibleEventSlot_empty_pop_cex :
    (GetPossibleEventSlot envEmptyPop 13).result = some ⟨⟨1, 2⟩, [], []⟩ ∧
      (GetPossibleEventSlot envEmptyPop 13).result ≠ none := by
  decide

/-- Environment with population `[uA]` where no query returns anyone. -/
def envNoAttend : Env := ⟨fun _ => .ok (some evOne), .ok [uA], fun _ _ => .ok []⟩

/-- C3 witness: the amended statement evaluated at a one-user population. -/
theorem getPossibleEventSlot_all_zero_absent_witness :
    (GetPossibleEventSlot envNoAttend 13).result = none ∧
      (GetPossibleEventSlot envNoAttend 13).err = none :=
  getPossibleEventSlot_all_zero_absent envNoAttend 13 evOne [uA] rfl rfl
    (by decide) (fun s _ => rfl)

/-! ## C5 — attendees / non-attendees partition -/

/-- Unfolding helper: one step of the loop when the query fails. -/
theorem slotLoop_cons_err (env : Env) (dur : Int) (allUsers : List User)
    (s : Slot) (rest : List Slot) (acc : PossibleEventSlot) (e : String)
    (hq : env.getUsersForSlot ⟨s.startTime, s.endTime⟩ dur = .error e) :
    slotLoop env dur allUsers (s :: rest) acc =
      ⟨none, some ("get users for slot: " ++ e), [(⟨s.startTime, s.endTime⟩, dur)]⟩ := by
  rw [slotLoop, hq]

/-- The shape every assigned running best has: its non-attendees are the
population filtered against its attendees, and its attendees come from
the population. -/
def GoodSplit (allUsers : List User) (ps : PossibleEventSlot) : Prop :=
  ps.notWorkingUsers = notAvailable allUsers ps.users ∧ ∀ u ∈ ps.users, u ∈ allUsers

/-- Membership in the rebuilt non-attendee list. -/
theorem mem_notAvailable (allUsers users : List User) (u : User) :
    u ∈ notAvailable allUsers users ↔ u ∈ allUsers ∧ ¬ u ∈ users := by
  simp [notAvailable, List.mem_filter, List.contains, List.elem_iff]

/-- Any result the loop hands back satisfies `GoodSplit`, provided every
successful query answers from within the population. -/
theorem slotLoop_result_goodsplit (env : Env) (dur : Int) (allUsers : List User)
    (l : List Slot) (acc : PossibleEventSlot)
    (hsub : ∀ s ∈ l, ∀ us, env.getUsersForSlot ⟨s.startTime, s.endTime⟩ dur = .ok us →
      ∀ u ∈ us, u ∈ allUsers)
    (hacc : acc.users = [] ∨ GoodSplit allUsers acc) :
    ∀ ps, (slotLoop env dur allUsers l acc).result = some ps → GoodSplit allUsers ps := by
  induction l generalizing acc with
  | nil =>
    intro ps hps
    rw [slotLoop] at hps
    by_cases hlen : acc.users.length = 0
    · simp [hlen] at hps
    · rw [if_neg hlen] at hps
      cases hps
      rcases hacc with h | h
      · exact absurd (by simp [h]) hlen
      · exact h
  | cons s rest ih =>
    intro ps hps
    cases hgq : env.getUsersForSlot ⟨s.startTime, s.endTime⟩ dur with
    | error e =>
      rw [slotLoop_cons_err env dur allUsers s rest acc e hgq] at hps
      cases hps
    | ok us =>
      have husub : ∀ u ∈ us, u ∈ allUsers := hsub s (by simp) us hgq
      rw [slotLoop_cons_ok env dur allUsers s rest acc us hgq] at hps
      by_cases hb : acc.users.length ≤ us.length
      · rw [if_pos hb] at hps
        by_cases hfull : us.length = allUsers.length
        · rw [if_pos hfull] at hps
          cases hps
          exact ⟨rfl, husub⟩
        · rw [if_neg hfull] at hps
          exact ih ⟨s, us, notAvailable allUsers us⟩
            (fun t ht => hsub t (by simp [ht])) (Or.inr ⟨rfl, husub⟩) ps hps
      · rw [if_neg hb] at hps
        exact ih acc (fun t ht => hsub t (by simp [ht])) hacc ps hps

/-- C5: whenever `GetPossibleEventSlot` yields a result and every
availability query answers from within the fetched population, the
attendee and non-attendee lists partition the population — every user is
in exactly one of the two — and the non-attendees are exactly the
population minus the winning slot's attendees, recomputed for that
slot. -/
theorem getPossibleEventSlot_partition (env : Env) (id : Nat) (ev : Event)
    (allUsers : List User) (ps : PossibleEventSlot)
    (hev : env.getEvent id = .ok (some ev))
    (hus : env.getUsers = .ok allUsers)
    (hsub : ∀ s ∈ ev.slots, ∀ us,
      env.getUsersForSlot ⟨s.startTime, s.endTime⟩ ev.durationHours = .ok us →
      ∀ u ∈ us, u ∈ allUsers)
    (hres : (GetPossibleEventSlot env id).result = some ps) :
    (∀ u, u ∈ allUsers ↔ (u ∈ ps.users ∨ u ∈ ps.notWorkingUsers)) ∧
      (∀ u, ¬ (u ∈ ps.users ∧ u ∈ ps.notWorkingUsers)) ∧
      ps.notWorkingUsers = notAvailable allUsers ps.users := by
  rw [GetPossibleEventSlot, hev] at hres
  by_cases hlen : ev.slots.length = 0
  · simp [hlen] at hres
  · simp only [hlen, if_false, hus] at hres
    have hgood : GoodSplit allUsers ps :=
      slotLoop_result_goodsplit env ev.durationHours allUsers ev.slots
        emptyPossibleSlot hsub (Or.inl rfl) ps (by simpa using hres)
    obtain ⟨hnw, hsubU⟩ := hgood
    refine ⟨fun u => ?_, fun u ⟨h1, h2⟩ => ?_, hnw⟩
    · constructor
      · intro hu
        by_cases hmem : u ∈ ps.users
        · exact Or.inl hmem
        · exact Or.inr (by rw [hnw, mem_notAvailable]; exact ⟨hu, hmem⟩)
      · rintro (h | h)
        · exact hsubU u h
        · rw [hnw, mem_notAvailable] at h
          exact h.1
    · rw [hnw, mem_notAvailable] at h2
      exact h2.2 h1

/-- C5 witness: the partition at the two-user fixture. -/
theorem getPossibleEventSlot_partition_witness :
    (∀ u, u ∈ [uA, uB] ↔ (u ∈ [uA] ∨ u ∈ [uB])) ∧
      (∀ u, ¬ (u ∈ [uA] ∧ u ∈ [uB])) ∧
      ([uB] = notAvailable [uA, uB] [uA]) :=
  getPossibleEventSlot_partition envTieLow 11 evTie [uA, uB] ⟨⟨3, 4⟩, [uA], [uB]⟩
    rfl rfl
    (by intro s hs us hus u hu
        cases hus
        simp only [List.mem_singleton] at hu
        subst hu
        simp)
    (by decide)

/-! ## C7 — failure semantics -/

/-- An errored loop never carries a result. -/
theorem slotLoop_err_none_result (env : Env) (dur : Int) (allUsers : List User)
    (l : List Slot) (acc : PossibleEventSlot)
    (h : (slotLoop env dur allUsers l acc).err.isSome = true) :
    (slotLoop env dur allUsers l acc).result = none := by
  induction l generalizing acc with
  | nil => simp [slotLoop] at h
  | cons s rest ih =>
    cases hgq : env.getUsersForSlot ⟨s.startTime, s.endTime⟩ dur with
    | error e => rw [slotLoop_cons_err env dur allUsers s rest acc e hgq]
    | ok us =>
      rw [slotLoop_cons_ok env dur allUsers s rest acc us hgq] at h ⊢
      by_cases hb : acc.users.length ≤ us.length
      · rw [if_pos hb] at h ⊢
        by_cases hfull : us.length = allUsers.length
        · rw [if_pos hfull] at h
          simp at h
        · rw [if_neg hfull] at h ⊢
          exact ih ⟨s, us, notAvailable allUsers us⟩ (by simpa using h)
      · rw [if_neg hb] at h ⊢
        exact ih acc (by simpa using h)

/-- The loop errors exactly when one of the availability calls it issued
failed. -/
theorem slotLoop_err_iff (env : Env) (dur : Int) (allUsers : List User)
    (l : List Slot) (acc : PossibleEventSlot) :
    (slotLoop env dur allUsers l acc).err.isSome = true ↔
      ∃ q ∈ (slotLoop env dur allUsers l acc).queried, ∃ e,
        env.getUsersForSlot q.1 q.2 = .error e := by
  induction l generalizing acc with
  | nil => simp [slotLoop]
  | cons s rest ih =>
    cases hgq : env.getUsersForSlot ⟨s.startTime, s.endTime⟩ dur with
    | error e =>
      rw [slotLoop_cons_err env dur allUsers s rest acc e hgq]
      simp [hgq]
    | ok us =>
      rw [slotLoop_cons_ok env dur allUsers s rest acc us hgq]
      by_cases hb : acc.users.length ≤ us.length
      · rw [if_pos hb]
        by_cases hfull : us.length = allUsers.length
        · rw [if_pos hfull]
          simp [hgq]
        · rw [if_neg hfull]
          simpa [hgq] using ih ⟨s, us, notAvailable allUsers us⟩
      · rw [if_neg hb]
        simpa [hgq] using ih acc

/-- An error message out of the loop is a phase-wrapped message of a
failed availability call that was issued. -/
theorem slotLoop_err_shape (env : Env) (dur : Int) (allUsers : List User)
    (l : List Slot) (acc : PossibleEventSlot) (m : String)
    (h : (slotLoop env dur allUsers l acc).err = some m) :
    ∃ e, m = "get users for slot: " ++ e ∧
      ∃ q ∈ (slotLoop env dur allUsers l acc).queried,
        env.getUsersForSlot q.1 q.2 = .error e := by
  induction l generalizing acc with
  | nil => simp [slotLoop] at h
  | cons s rest ih =>
    cases hgq : env.getUsersForSlot ⟨s.startTime, s.endTime⟩ dur with
    | error e =>
      rw [slotLoop_cons_err env dur allUsers s rest acc e hgq] at h ⊢
      cases h
      exact ⟨e, rfl, (⟨s.startTime, s.endTime⟩, dur), by simp, hgq⟩
    | ok us =>
      rw [slotLoop_cons_ok env dur allUsers s rest acc us hgq] at h ⊢
      by_cases hb : acc.users.length ≤ us.length
      · rw [if_pos hb] at h ⊢
        by_cases hfull : us.length = allUsers.length
        · rw [if_pos hfull] at h
          cases h
        · rw [if_neg hfull] at h ⊢
          obtain ⟨e, hm, q, hq, he⟩ := ih ⟨s, us, notAvailable allUsers us⟩ (by simpa using h)
          exact ⟨e, hm, q, by simp; exact Or.inr hq, he⟩
      · rw [if_neg hb] at h ⊢
        obtain ⟨e, hm, q, hq, he⟩ := ih acc (by simpa using h)
        exact ⟨e, hm, q, by simp; exact Or.inr hq, he⟩

/-- C7: `GetPossibleEventSlot` errors exactly when one of the store
accesses it performed failed — fetching the event, fetching the user
population (when reached), or an availability query it issued; whenever
it errors, the result is `none` (no partial result), and the error
message is the failing call's message wrapped with its phase
(`"get event: "`, `"get users: "`, or `"get users for slot: "`). -/
theorem getPossibleEventSlot_error_spec (env : Env) (id : Nat) :
    ((GetPossibleEventSlot env id).err.isSome = true →
      (GetPossibleEventSlot env id).result = none) ∧
    ((GetPossibleEventSlot env id).err.isSome = true ↔
      (∃ e, env.getEvent id = .error e) ∨
      ((GetPossibleEventSlot env id).usersFetched = true ∧
        ∃ e, env.getUsers = .error e) ∨
      (∃ q ∈ (GetPossibleEventSlot env id).queried, ∃ e,
        env.getUsersForSlot q.1 q.2 = .error e)) ∧
    (∀ m, (GetPossibleEventSlot env id).err = some m →
      (∃ e, m = "get event: " ++ e ∧ env.getEvent id = .error e) ∨
      (∃ e, m = "get users: " ++ e ∧ env.getUsers = .error e) ∨
      (∃ e, m = "get users for slot: " ++ e ∧
        ∃ q ∈ (GetPossibleEventSlot env id).queried,
          env.getUsersForSlot q.1 q.2 = .error e)) := by
  cases henv : env.getEvent id with
  | error e =>
    refine ⟨?_, ?_, ?_⟩ <;> simp only [GetPossibleEventSlot, henv]
    · exact fun _ => trivial
    · simp
    · intro m hm
      cases hm
      exact Or.inl ⟨e, rfl, rfl⟩
  | ok oev =>
    cases oev with
    | none =>
      refine ⟨?_, ?_, ?_⟩ <;> simp only [GetPossibleEventSlot, henv]
      · exact fun h => by simp at h
      · simp
      · exact fun m hm => by cases hm
    | some ev =>
      by_cases hlen : ev.slots.length = 0
      · refine ⟨?_, ?_, ?_⟩ <;> simp only [GetPossibleEventSlot, henv, if_pos hlen]
        · exact fun h => by simp at h
        · simp
        · exact fun m hm => by cases hm
      · cases hus : env.getUsers with
        | error e =>
          refine ⟨?_, ?_, ?_⟩ <;> simp only [GetPossibleEventSlot, henv, if_neg hlen, hus]
          · exact fun _ => trivial
          · simp
          · intro m hm
            cases hm
            exact Or.inr (Or.inl ⟨e, rfl, rfl⟩)
        | ok allUsers =>
          refine ⟨?_, ?_, ?_⟩ <;> simp only [GetPossibleEventSlot, henv, if_neg hlen, hus]
          · intro h
            simpa using slotLoop_err_none_result env ev.durationHours allUsers
              ev.slots emptyPossibleSlot (by simpa using h)
          · rw [slotLoop_err_iff env ev.durationHours allUsers ev.slots emptyPossibleSlot]
            simp
          · intro m hm
            obtain ⟨e, hme, q, hq, he⟩ :=
              slotLoop_err_shape env ev.durationHours allUsers ev.slots emptyPossibleSlot m
                (by simpa using hm)
            exact Or.inr (Or.inr ⟨e, hme, q, by simpa using hq, he⟩)

/-! ## C9 — transactional bulk insert of availability slots
(`src/user/dao.go` `CreateUserSlots`, lines 97-120)

The `database/sql` transaction is made explicit: statements executed
inside the transaction accumulate in a buffer; `Commit` appends the
buffer to the table, the deferred `Rollback` discards it. The points at
which the driver may fail (`BeginTx`, each `ExecContext`, `Commit`) are
an oracle. -/

/-- Which of the transaction's driver calls fail: `BeginTx`, the `i`-th
`INSERT`'s `ExecContext`, and `Commit`. -/
structure TxOracle where
  beginErr : Option String
  execErr : Nat → Option String
  commitErr : Option String

/-- The `for _, slot := range slots` INSERT loop inside the transaction:
the buffered rows, or the first failing insert's wrapped error. -/
def txInserts (o : TxOracle) (userID : Nat) :
    List UserSlot → Nat → Except String (List AvailabilityRecord)
  | [], _ => .ok []
  | s :: rest, i =>
    match o.execErr i with
    | some e => .error ("exec context: " ++ e)
    | none =>
      (txInserts o userID rest (i + 1)).map fun buf => ⟨userID, s.startTime, s.endTime⟩ :: buf

/-- The observable outcome of `CreateUserSlots`: the committed
`users_availability` table and the Go pair `([]Slot, error)`. -/
structure SlotsOut where
  db : List AvailabilityRecord
  result : Option (List UserSlot)
  err : Option String
deriving Repr

/-- `(*Accessor).CreateUserSlots` of `src/user/dao.go` lines 97-120:
begin a transaction, insert every slot, commit; the deferred rollback
discards the buffer on any failure. -/
def CreateUserSlots (o : TxOracle) (db : List AvailabilityRecord) (userID : Nat)
    (slots : List UserSlot) : SlotsOut :=
  match o.beginErr with
  | some e => ⟨db, none, some ("begin tx: " ++ e)⟩
  | none =>
    match txInserts o userID slots 0 with
    | .error e => ⟨db, none, some e⟩
    | .ok buf =>
      match o.commitErr with
      | some e => ⟨db, none, some ("commit: " ++ e)⟩
      | none => ⟨db ++ buf, some slots, none⟩

/-- A successful insert loop buffers exactly one row per slot, in
order. -/
theorem txInserts_ok (o : TxOracle) (userID : Nat) (slots : List UserSlot) :
    ∀ (i : Nat) (buf : List AvailabilityRecord), txInserts o userID slots i = .ok buf →
      buf = slots.map fun s => ⟨userID, s.startTime, s.endTime⟩ := by
  induction slots with
  | nil =>
    intro i buf h
    cases h
    rfl
  | cons s rest ih =>
    intro i buf h
    rw [txInserts] at h
    cases hx : o.execErr i with
    | some e => rw [hx] at h; cases h
    | none =>
      rw [hx] at h
      cases hrec : txInserts o userID rest (i + 1) with
      | error e => rw [hrec] at h; cases h
      | ok buf2 =>
        rw [hrec] at h
        cases h
        rw [List.map_cons, ih (i + 1) buf2 hrec]

/-- C9: `CreateUserSlots` is all-or-nothing: either no driver call fails,
every slot's row is committed and the slots are returned, or some call
fails, the table is left exactly as it was (no row committed) and an
error is returned with no result. -/
theorem createUserSlots_atomic (o : TxOracle) (db : List AvailabilityRecord)
    (userID : Nat) (slots : List UserSlot) :
    ((CreateUserSlots o db userID slots).err = none ∧
      (CreateUserSlots o db userID slots).db =
        db ++ (slots.map fun s => ⟨userID, s.startTime, s.endTime⟩) ∧
      (CreateUserSlots o db userID slots).result = some slots) ∨
    ((CreateUserSlots o db userID slots).err.isSome = true ∧
      (CreateUserSlots o db userID slots).db = db ∧
      (CreateUserSlots o db userID slots).result = none) := by
  rw [CreateUserSlots]
  cases hb : o.beginErr with
  | some e => exact Or.inr ⟨rfl, rfl, rfl⟩
  | none =>
    cases htx : txInserts o userID slots 0 with
    | error e => exact Or.inr ⟨rfl, rfl, rfl⟩
    | ok buf =>
      cases hc : o.commitErr with
      | some e => exact Or.inr ⟨rfl, rfl, rfl⟩
      | none =>
        refine Or.inl ⟨rfl, ?_, rfl⟩
        rw [show (⟨db ++ buf, some slots, none⟩ : SlotsOut).db = db ++ buf from rfl,
          txInserts_ok o userID slots 0 buf htx]

/-! ## C10 — UpdateEvent frame (`src/event/dao.go` lines 37-58)

The `events` table is an explicit row list. The SQL
`UPDATE events SET title = $1, duration_hours = $2, slots = $3 WHERE id = $4`
rewrites exactly those three columns of matching rows; the follow-up
`GetEvent` re-fetch is the row lookup by id. -/

/-- `(*Accessor).UpdateEvent`: validate, run the three-column UPDATE,
then re-fetch the row to return it (carrying the stored `created_at`).
Returns (table after the call, returned event, error). -/
def UpdateEvent (db : List Event) (e : Event) (now : Int) :
    List Event × Option Event × Option String :=
  match Event.Validate e with
  | some msg => (db, none, some ("validate: " ++ msg))
  | none =>
    let db2 := db.map fun row =>
      if row.id = e.id then
        { row with title := e.title, durationHours := e.durationHours, slots := e.slots }
      else row
    match db2.find? fun row => row.id == e.id with
    | none => (db2, none, some "event not found after update")
    | some ev => (db2, some ev, none)

/-- C10: for a stored event and a valid payload, `UpdateEvent` changes
only `title`, `duration_hours` and `slots`: the returned event keeps the
stored row's id, organizer (`user_id`) and original `created_at`, and
every row of the table keeps its id, organizer and creation time, rows
with other ids being untouched entirely. `now` is accepted but (unlike
in `CreateEvent`) never written. -/
theorem updateEvent_frame (db : List Event) (e : Event) (now : Int) (ev0 : Event)
    (hval : Event.Validate e = none)
    (hfind : db.find? (fun row => row.id == e.id) = some ev0) :
    (UpdateEvent db e now).2.1 =
        some ⟨ev0.id, e.title, e.durationHours, ev0.userId, e.slots, ev0.createdAt⟩ ∧
      (UpdateEvent db e now).2.2 = none ∧
      List.Forall₂ (fun old new => new.id = old.id ∧ new.userId = old.userId ∧
          new.createdAt = old.createdAt ∧ (old.id ≠ e.id → new = old))
        db (UpdateEvent db e now).1 := by
  have hid : ev0.id = e.id := by simpa using List.find?_some hfind
  have hcomp : ((fun row => row.id == e.id) ∘ fun row =>
      if row.id = e.id then
        { row with title := e.title, durationHours := e.durationHours, slots := e.slots }
      else row) = fun row : Event => row.id == e.id := by
    funext row
    by_cases h : row.id = e.id <;> simp [h]
  simp only [UpdateEvent, hval]
  rw [List.find?_map, hcomp, hfind]
  simp only [Option.map_some']
  refine ⟨by simp [hid], trivial, ?_⟩
  have hframe : List.Forall₂ (fun old new => new.id = old.id ∧ new.userId = old.userId ∧
      new.createdAt = old.createdAt ∧ (old.id ≠ e.id → new = old))
      db (db.map fun row =>
        if row.id = e.id then
          { row with title := e.title, durationHours := e.durationHours, slots := e.slots }
        else row) := by
    rw [List.forall₂_map_right_iff, List.forall₂_same]
    intro row _
    by_cases h : row.id = e.id <;> simp [h]
  exact hframe

/-- A stored event row for the update fixture. -/
def evStored : Event := ⟨21, "t", 1, 9, [⟨1, 2⟩], 100⟩

/-- A valid update payload for the same event id. -/
def evPayload : Event := ⟨21, "t2", 3, 9, [⟨4, 6⟩], 0⟩

/-- C10 witness: updating the one stored row rewrites title, duration and
slots but keeps organizer 9 and `created_at` 100. -/
theorem updateEvent_frame_witness :
    (UpdateEvent [evStored] evPayload 999).2.1 = some ⟨21, "t2", 3, 9, [⟨4, 6⟩], 100⟩ ∧
      (UpdateEvent [evStored] evPayload 999).2.2 = none ∧
      List.Forall₂ (fun old new => new.id = old.id ∧ new.userId = old.userId ∧
          new.createdAt = old.createdAt ∧ (old.id ≠ evPayload.id → new = old))
        [evStored] (UpdateEvent [evStored] evPayload 999).1 :=
  updateEvent_frame [evStored] evPayload 999 evStored (by decide) rfl
